import Mathlib

/-!
Verification of the earedis service (src/main.go): a thin façade over a
redis client with an expansion protocol (`SMembersWithChild`,
`JSONSMembersWithChild`), single-key operations (`Get`, `JSONGet`) and
connection lifecycle (`NewService`, `Init`).

Modelling conventions:
* Go's `error` is `Option Err` with `none` for `nil` (`Err` is an opaque
  message string).
* A Go two-value return `(x, err)` becomes a Lean pair `x × Option Err`;
  a `nil` slice result is distinguished from an empty slice by using
  `Option (List String)` where the Go function can return `nil, err`.
* The go-redis client handle (`s.client`) is modelled as an explicit
  `Client` record of response functions passed to each operation; the Go
  code stores it in the `Service` struct at `Init`, but no claim depends
  on that plumbing.
* `json.Unmarshal` into an element of type `T` is modelled by a caller
  supplied total function `decode : String → Except Err T`.
* `time.Duration` is a `Nat` count of nanoseconds.
-/

namespace Earedis

/-- Error values returned by the underlying redis client; a Go `error`
is `Option Err`, with `none` for Go's `nil`. -/
abbrev Err := String

/-- Model of the go-redis client handle: the responses of the store to
the primitive calls the service makes.  `get key` is the pair returned
by `client.Get(ctx, key).Result()`; `smembers key` is the pair returned
by `client.SMembers(ctx, key).Result()`. -/
structure Client where
  get : String → String × Option Err
  smembers : String → List String × Option Err

/-- ConnectConfig — the structure for connecting to redis
(src/main.go:17-23).  `pingConnectionTTL` is the optional probe timeout
in nanoseconds; `none` models the `nil` pointer. -/
structure ConnectConfig where
  Addr : String
  User : String
  Password : String
  DB : Int
  pingConnectionTTL : Option Nat

/-- Service — redis service (src/main.go:26-33).  The logger is not
modelled (log lines are observability only) and the client handle is
passed explicitly to each operation. -/
structure Service where
  c : ConnectConfig
  traceName : String

/-- One nanosecond, the unit of `time.Duration`. -/
def nanosecond : Nat := 1

/-- The nanosecond count of one Go second (time.Second). -/
def second : Nat := 1000000000

/-- NewService — returns the Service instance (src/main.go:184-196):
installs the 30 second default probe timeout when the config leaves it
unset, and brackets the trace name. -/
def NewService (c : ConnectConfig) (traceName : String) : Service :=
  let c' :=
    if c.pingConnectionTTL = none then
      { c with pingConnectionTTL := some (30 * second) }
    else c
  { c := c', traceName := "[" ++ traceName ++ "_RedisService]" }

/-- Init — initializing the connection with redis (src/main.go:36-52).
`ping ttl` models `client.Ping(ctx).Err()` under a context with timeout
`ttl` (the Go code builds the client from the config and pings it).  The
Go code dereferences `*s.c.pingConnectionTTL`; the outer `Option` is
`none` exactly when that pointer is `nil` (a Go panic), and otherwise
holds the error returned to the caller: the ping error when the probe
fails, `nil` when it succeeds. -/
def Service.Init (s : Service) (ping : Nat → Option Err) : Option (Option Err) :=
  s.c.pingConnectionTTL.map fun ttl => ping ttl

/-- Get (src/main.go:140-148): returns `("", err)` when the client call
errors or the result is empty, and `(result, nil)` otherwise.  Note that
in the empty-result branch the propagated `err` is whatever the client
returned — which is `nil` when the store answered an empty string with
no error. -/
def Service.Get (c : Client) (key : String) : String × Option Err :=
  let r := c.get key
  if r.2.isSome ∨ r.1.length = 0 then ("", r.2) else (r.1, none)

/-- The loop of SMembersWithChild (src/main.go:103-111): for each member
in order, `s.Get` it; skip it when the get errors or the value is empty,
otherwise append the value to the accumulated result. -/
def resolveLoop (c : Client) : List String → List String → List String
  | [], result => result
  | member :: rest, result =>
    let g := Service.Get c member
    if g.2.isSome ∨ g.1.length = 0 then resolveLoop c rest result
    else resolveLoop c rest (result ++ [g.1])

/-- The decision the loop body makes for one member: `some v` when the
member resolved to the non-empty value `v`, `none` when it was skipped. -/
def resolveOne (c : Client) (member : String) : Option String :=
  let g := Service.Get c member
  if g.2.isSome ∨ g.1.length = 0 then none else some g.1

/-- SMembersWithChild (src/main.go:94-114): fetch the member set at
`key`; on error return `(nil, err)`; otherwise resolve each member in
order with the skip-on-failure loop and return `(result, nil)`. -/
def Service.SMembersWithChild (c : Client) (key : String) :
    Option (List String) × Option Err :=
  let m := c.smembers key
  match m.2 with
  | some e => (none, some e)
  | none => (some (resolveLoop c m.1 []), none)

/-- The decode loop of JSONSMembersWithChild (src/main.go:126-135): for
each raw item in order, decode it; on a decode error stop immediately,
leaving the output slice with whatever was appended so far and returning
the error; otherwise append the decoded element and continue. -/
def decodeLoop {T : Type} (decode : String → Except Err T) :
    List String → List T → List T × Option Err
  | [], out => (out, none)
  | item :: rest, out =>
    match decode item with
    | Except.error e => (out, some e)
    | Except.ok x => decodeLoop decode rest (out ++ [x])

/-- JSONSMembersWithChild (src/main.go:116-138): run SMembersWithChild;
on error return the error with the caller's slice untouched; otherwise
decode each raw value in order, appending to the caller's slice `v`.
The returned list is the final contents of the slice `v` points to. -/
def Service.JSONSMembersWithChild {T : Type} (c : Client)
    (decode : String → Except Err T) (key : String) (v : List T) :
    List T × Option Err :=
  let r := Service.SMembersWithChild c key
  match r.2 with
  | some e => (v, some e)
  | none => decodeLoop decode (r.1.getD []) v

/-- JSONGet (src/main.go:150-162): get the key; when the get errors or
the result is empty, return the client's error (possibly `nil`) with `v`
untouched; otherwise decode into `v`.  The returned value is the final
contents of `v`. -/
def Service.JSONGet {T : Type} (c : Client)
    (decode : String → Except Err T) (key : String) (v : T) :
    T × Option Err :=
  let r := c.get key
  if r.2.isSome ∨ r.1.length = 0 then (v, r.2)
  else
    match decode r.1 with
    | Except.error e => (v, some e)
    | Except.ok x => (x, none)

/-! Concrete fixtures used by the witness theorems. -/

/-- A store whose calls all fail, modelling a disconnected redis. -/
def downClient : Client :=
  { get := fun _ => ("", some "connection refused")
    smembers := fun _ => ([], some "connection refused") }

/-- A store whose get answers an empty string with a `nil` error (the
key holds the empty string) and whose member sets are empty. -/
def emptyValClient : Client :=
  { get := fun _ => ("", none)
    smembers := fun _ => ([], none) }

/-- A store with one reference set `idx` whose members are `o:1` (holds
`v1`), `o:2` (holds the empty string) and `o:3` (holds `bad`); every
other key is absent (`redis: nil` error). -/
def sampleClient : Client :=
  { get := fun k =>
      if k = "o:1" then ("v1", none)
      else if k = "o:2" then ("", none)
      else if k = "o:3" then ("bad", none)
      else ("", some "redis: nil")
    smembers := fun k =>
      if k = "idx" then (["o:1", "o:2", "o:3"], none)
      else ([], none) }

/-- A concrete decoder into `Nat` used by witnesses: accepts the payload
`v1` and rejects anything else, modelling a `json.Unmarshal` that fails
on malformed input. -/
def natDecode : String → Except Err Nat := fun s =>
  if s = "v1" then Except.ok 1 else Except.error "invalid"

/-- A connect config that leaves the probe timeout unset. -/
def sampleConfig : ConnectConfig :=
  { Addr := "localhost:6379", User := "", Password := "", DB := 0
    pingConnectionTTL := none }

/-! Helper lemmas about the loops. -/

/-- The member-resolution loop appends to its accumulator exactly the
members that resolve, in order. -/
theorem resolveLoop_eq (c : Client) (l acc : List String) :
    resolveLoop c l acc = acc ++ l.filterMap (resolveOne c) := by
  induction l generalizing acc with
  | nil => simp [resolveLoop]
  | cons m rest ih =>
    by_cases h : (Service.Get c m).2.isSome ∨ ((Service.Get c m).1).length = 0
    · simp [resolveLoop, resolveOne, h, ih]
    · simp [resolveLoop, resolveOne, h, ih]

/-- On a successful index fetch, SMembersWithChild returns exactly the
order-preserving filtration of the members through `resolveOne`. -/
theorem smembersWithChild_ok (c : Client) (key : String)
    (h : (c.smembers key).2 = none) :
    Service.SMembersWithChild c key =
      (some (((c.smembers key).1).filterMap (resolveOne c)), none) := by
  simp only [Service.SMembersWithChild]
  rw [h, resolveLoop_eq]
  simp

/-- The decode loop only ever appends to its accumulator. -/
theorem decodeLoop_acc {T : Type} (decode : String → Except Err T)
    (l : List String) (out : List T) :
    decodeLoop decode l out =
      (out ++ (decodeLoop decode l []).1, (decodeLoop decode l []).2) := by
  induction l generalizing out with
  | nil => simp [decodeLoop]
  | cons item rest ih =>
    cases hd : decode item with
    | error e => simp [decodeLoop, hd]
    | ok x =>
      simp only [decodeLoop, hd, List.nil_append]
      rw [ih (out ++ [x]), ih [x]]
      simp

/-- The decode loop stops at the first failing item, keeping exactly the
elements decoded before it. -/
theorem decodeLoop_stop {T : Type} (decode : String → Except Err T)
    (good : List String) (bad : String) (rest : List String) (e : Err)
    (hok : ∀ s ∈ good, ∃ x, decode s = Except.ok x)
    (hbad : decode bad = Except.error e) (out : List T) :
    decodeLoop decode (good ++ bad :: rest) out =
      (out ++ good.filterMap (fun s => (decode s).toOption), some e) := by
  induction good generalizing out with
  | nil => simp [decodeLoop, hbad]
  | cons s gs ih =>
    obtain ⟨x, hx⟩ := hok s (List.mem_cons_self _ _)
    simp only [List.cons_append, decodeLoop, hx, List.append_eq]
    rw [ih (fun t ht => hok t (List.mem_cons_of_mem _ ht)) (out ++ [x])]
    simp [hx, Except.toOption]

/-- A list whose items all decode gives one output element per item. -/
theorem decode_all_ok_length {T : Type} (decode : String → Except Err T)
    (l : List String) (hok : ∀ s ∈ l, ∃ x, decode s = Except.ok x) :
    (l.filterMap fun s => (decode s).toOption).length = l.length := by
  induction l with
  | nil => simp
  | cons s gs ih =>
    obtain ⟨x, hx⟩ := hok s (List.mem_cons_self _ _)
    have ih' := ih fun t ht => hok t (List.mem_cons_of_mem _ ht)
    simp only [List.filterMap_cons, hx, Except.toOption, List.length_cons]
    exact congrArg (fun n => n + 1) ih'

/-- Filtering through `resolveOne` yields a subsequence of the values
the per-member gets returned, in order. -/
theorem resolveOne_sublist (c : Client) (l : List String) :
    List.Sublist (l.filterMap (resolveOne c))
      (l.map fun m => (Service.Get c m).1) := by
  induction l with
  | nil => simp
  | cons m rest ih =>
    by_cases h : (Service.Get c m).2.isSome ∨ ((Service.Get c m).1).length = 0
    · simp only [List.filterMap_cons, resolveOne, if_pos h, List.map_cons]
      exact ih.cons _
    · simp only [List.filterMap_cons, resolveOne, if_neg h, List.map_cons]
      exact ih.cons₂ _

/-- A filterMap that succeeds everywhere is a map. -/
theorem filterMap_eq_map_of_forall {α β : Type} (f : α → Option β) (g : α → β)
    (l : List α) (h : ∀ a ∈ l, f a = some (g a)) : l.filterMap f = l.map g := by
  induction l with
  | nil => simp
  | cons a as ih =>
    simp [h a (List.mem_cons_self _ _),
      ih fun b hb => h b (List.mem_cons_of_mem _ hb)]

/-! Claim theorems. -/

/-- Claim C1: when the set-membership query at the reference key fails,
SMembersWithChild returns a nil result together with that error, and the
outcome does not depend on the per-member get responses at all (no
per-member resolution is performed). -/
theorem claim1_index_error_aborts (c : Client) (key : String) (e : Err)
    (h : (c.smembers key).2 = some e) :
    Service.SMembersWithChild c key = (none, some e) ∧
    ∀ g : String → String × Option Err,
      Service.SMembersWithChild { get := g, smembers := c.smembers } key =
        (none, some e) := by
  constructor
  · simp only [Service.SMembersWithChild]
    rw [h]
  · intro g
    simp only [Service.SMembersWithChild]
    have h' : (({ get := g, smembers := c.smembers } : Client).smembers key).2 =
        some e := h
    rw [h']

/-- Witness for C1 at a disconnected store. -/
theorem claim1_index_error_aborts_witness :
    (downClient.smembers "idx").2 = some "connection refused" ∧
    Service.SMembersWithChild downClient "idx" =
      (none, some "connection refused") :=
  ⟨rfl, (claim1_index_error_aborts downClient "idx" "connection refused" rfl).1⟩

/-- Claim C2: when the set-membership query succeeds, SMembersWithChild
returns a nil error; members whose get fails or resolves to an empty
value contribute nothing (`resolveOne` is `none` for them), and the
result is exactly the filtration of the members through `resolveOne`. -/
theorem claim2_member_failures_tolerated (c : Client) (key : String)
    (h : (c.smembers key).2 = none) :
    (Service.SMembersWithChild c key).2 = none ∧
    (Service.SMembersWithChild c key).1 =
      some (((c.smembers key).1).filterMap (resolveOne c)) ∧
    ∀ member : String,
      (Service.Get c member).2.isSome ∨ ((Service.Get c member).1).length = 0 →
        resolveOne c member = none := by
  rw [smembersWithChild_ok c key h]
  refine ⟨rfl, rfl, fun member hm => ?_⟩
  unfold resolveOne
  rw [if_pos hm]

/-- Witness for C2 at the sample store, where member `o:2` is empty and
is skipped without an error. -/
theorem claim2_member_failures_tolerated_witness :
    (sampleClient.smembers "idx").2 = none ∧
    (Service.SMembersWithChild sampleClient "idx").2 = none :=
  ⟨rfl, (claim2_member_failures_tolerated sampleClient "idx" rfl).1⟩

/-- Claim C3: on a successful set-membership query the result of
SMembersWithChild is an order-preserving subsequence of the per-member
get values, and when every member resolves it is exactly the list of
those values in member order. -/
theorem claim3_order_preserving (c : Client) (key : String)
    (h : (c.smembers key).2 = none) :
    ∃ l, Service.SMembersWithChild c key = (some l, none) ∧
      List.Sublist l (((c.smembers key).1).map fun m => (Service.Get c m).1) ∧
      ((∀ m ∈ (c.smembers key).1,
          resolveOne c m = some (Service.Get c m).1) →
        l = ((c.smembers key).1).map fun m => (Service.Get c m).1) := by
  refine ⟨((c.smembers key).1).filterMap (resolveOne c),
    smembersWithChild_ok c key h, resolveOne_sublist c _, fun hall => ?_⟩
  exact filterMap_eq_map_of_forall _ _ _ hall

/-- Witness for C3 at the sample store. -/
theorem claim3_order_preserving_witness :
    (sampleClient.smembers "idx").2 = none ∧
    ∃ l, Service.SMembersWithChild sampleClient "idx" = (some l, none) ∧
      List.Sublist l ((sampleClient.smembers "idx").1.map fun m =>
        (Service.Get sampleClient m).1) ∧
      ((∀ m ∈ (sampleClient.smembers "idx").1,
          resolveOne sampleClient m = some (Service.Get sampleClient m).1) →
        l = (sampleClient.smembers "idx").1.map fun m =>
          (Service.Get sampleClient m).1) :=
  ⟨rfl, claim3_order_preserving sampleClient "idx" rfl⟩

/-- Claim C4: when SMembersWithChild succeeds with raw values `raw` and
the first malformed payload sits at 0-indexed position `k`, running
JSONSMembersWithChild on an initially-empty output slice returns the
decode error and the output holds exactly the `k` elements decoded
before the failing item, in order. -/
theorem claim4_decode_failure_truncates {T : Type} (c : Client)
    (decode : String → Except Err T) (key : String) (raw : List String)
    (k : Nat) (e : Err)
    (herr : (Service.SMembersWithChild c key).2 = none)
    (hraw : (Service.SMembersWithChild c key).1 = some raw)
    (hk : k < raw.length)
    (hok : ∀ s ∈ raw.take k, ∃ x, decode s = Except.ok x)
    (hbad : decode (raw.get ⟨k, hk⟩) = Except.error e) :
    Service.JSONSMembersWithChild c decode key [] =
      ((raw.take k).filterMap (fun s => (decode s).toOption), some e) ∧
    ((raw.take k).filterMap fun s => (decode s).toOption).length = k := by
  have hsplit : raw = raw.take k ++ raw.get ⟨k, hk⟩ :: raw.drop (k + 1) := by
    conv_lhs => rw [← List.take_append_drop k raw]
    rw [List.drop_eq_getElem_cons hk, List.get_eq_getElem]
  have hloop : decodeLoop decode raw ([] : List T) =
      ((raw.take k).filterMap (fun s => (decode s).toOption), some e) := by
    conv_lhs => rw [hsplit]
    rw [decodeLoop_stop decode _ _ _ e hok hbad]
    simp
  have hlen : ((raw.take k).filterMap fun s => (decode s).toOption).length = k := by
    rw [decode_all_ok_length decode _ hok, List.length_take]
    exact min_eq_left (Nat.le_of_lt hk)
  refine ⟨?_, hlen⟩
  simp only [Service.JSONSMembersWithChild]
  rw [herr, hraw]
  simpa using hloop

/-- Witness for C4 at the sample store: the raw values are `v1` and
`bad`, the payload at position 1 is malformed, and the output holds the
single element decoded before it. -/
theorem claim4_decode_failure_truncates_witness :
    Service.JSONSMembersWithChild sampleClient natDecode "idx" [] =
      (((["v1", "bad"] : List String).take 1).filterMap
        (fun s => (natDecode s).toOption), some "invalid") :=
  (claim4_decode_failure_truncates sampleClient natDecode "idx" ["v1", "bad"]
    1 "invalid" rfl rfl (by decide)
    (by
      intro s hs
      rw [show (["v1", "bad"] : List String).take 1 = ["v1"] from rfl,
        List.mem_singleton] at hs
      exact ⟨1, by rw [hs]; rfl⟩)
    rfl).1

/-- Claim C5 records a divergence between the code and the spec: when
the store's get answers an empty string with a `nil` error (the key
holds the empty string), `Get` and `JSONGet` take their failure branch
(the empty result is logged as a failure) yet forward the store's `nil`
error, so the caller receives no error at all. -/
theorem claim5_empty_value_nil_error :
    Service.Get emptyValClient "key" = ("", none) ∧
    Service.JSONGet emptyValClient natDecode "key" 0 = (0, none) :=
  ⟨rfl, rfl⟩

/-- Claim C6: a successful set-membership query with zero members makes
SMembersWithChild return an empty sequence and a nil error. -/
theorem claim6_zero_members (c : Client) (key : String)
    (h : c.smembers key = ([], none)) :
    Service.SMembersWithChild c key = (some [], none) := by
  simp only [Service.SMembersWithChild, h]
  rfl

/-- Witness for C6 at a store with only empty member sets. -/
theorem claim6_zero_members_witness :
    emptyValClient.smembers "idx" = ([], none) ∧
    Service.SMembersWithChild emptyValClient "idx" = (some [], none) :=
  ⟨rfl, claim6_zero_members emptyValClient "idx" rfl⟩

/-- Claim C7: when the config leaves the probe timeout unset, NewService
installs the default of 30 seconds, and Init probes with exactly that
timeout. -/
theorem claim7_default_ttl (cfg : ConnectConfig) (tn : String)
    (ping : Nat → Option Err) (h : cfg.pingConnectionTTL = none) :
    (NewService cfg tn).c.pingConnectionTTL = some (30 * second) ∧
    Service.Init (NewService cfg tn) ping = some (ping (30 * second)) := by
  have h1 : (NewService cfg tn).c.pingConnectionTTL = some (30 * second) := by
    simp [NewService, h]
  exact ⟨h1, by simp [Service.Init, h1]⟩

/-- Witness for C7 at a config with no timeout set. -/
theorem claim7_default_ttl_witness :
    sampleConfig.pingConnectionTTL = none ∧
    ((NewService sampleConfig "APP").c.pingConnectionTTL =
        some (30 * second) ∧
      Service.Init (NewService sampleConfig "APP") (fun _ => none) =
        some none) :=
  ⟨rfl, claim7_default_ttl sampleConfig "APP" (fun _ => none) rfl⟩

/-- Claim C8: with a set probe timeout, Init returns exactly the ping's
error: a non-nil error is returned precisely when the probe fails, and
a successful probe yields a nil error. -/
theorem claim8_init_ping (s : Service) (ping : Nat → Option Err) (ttl : Nat)
    (h : s.c.pingConnectionTTL = some ttl) :
    Service.Init s ping = some (ping ttl) ∧
    ((∃ e, Service.Init s ping = some (some e)) ↔ ∃ e, ping ttl = some e) := by
  have h1 : Service.Init s ping = some (ping ttl) := by simp [Service.Init, h]
  refine ⟨h1, ?_⟩
  rw [h1]
  constructor
  · rintro ⟨e, he⟩
    exact ⟨e, Option.some.inj he⟩
  · rintro ⟨e, he⟩
    exact ⟨e, by rw [he]⟩

/-- Witness for C8 at the defaulted sample service and a failing probe. -/
theorem claim8_init_ping_witness :
    (NewService sampleConfig "APP").c.pingConnectionTTL =
      some (30 * second) ∧
    Service.Init (NewService sampleConfig "APP") (fun _ => some "timeout") =
      some (some "timeout") :=
  ⟨rfl, (claim8_init_ping (NewService sampleConfig "APP")
    (fun _ => some "timeout") (30 * second) rfl).1⟩

/-- Claim C9: when the inner SMembersWithChild call fails, the
JSONSMembersWithChild result carries that error and the caller's slice
contents are returned exactly as supplied — the slice is untouched. -/
theorem claim9_error_frame {T : Type} (c : Client)
    (decode : String → Except Err T) (key : String) (v : List T) (e : Err)
    (h : (c.smembers key).2 = some e) :
    Service.JSONSMembersWithChild c decode key v = (v, some e) := by
  have h1 : (Service.SMembersWithChild c key).2 = some e := by
    simp only [Service.SMembersWithChild]
    rw [h]
  simp only [Service.JSONSMembersWithChild]
  rw [h1]

/-- Witness for C9 at a disconnected store with a pre-populated slice. -/
theorem claim9_error_frame_witness :
    (downClient.smembers "idx").2 = some "connection refused" ∧
    Service.JSONSMembersWithChild downClient natDecode "idx" [7] =
      ([7], some "connection refused") :=
  ⟨rfl, claim9_error_frame downClient natDecode "idx" [7]
    "connection refused" rfl⟩

/-- Claim C10: JSONSMembersWithChild appends to the caller's slice: the
final contents are the supplied elements, in place, followed by exactly
the elements an initially-empty call would decode, and the returned
error does not depend on the supplied contents. -/
theorem claim10_append_frame {T : Type} (c : Client)
    (decode : String → Except Err T) (key : String) (v : List T) :
    (Service.JSONSMembersWithChild c decode key v).1 =
      v ++ (Service.JSONSMembersWithChild c decode key []).1 ∧
    (Service.JSONSMembersWithChild c decode key v).2 =
      (Service.JSONSMembersWithChild c decode key []).2 := by
  simp only [Service.JSONSMembersWithChild]
  cases hm : (Service.SMembersWithChild c key).2 with
  | some e => simp
  | none =>
    rw [decodeLoop_acc decode _ v]
    simp

end Earedis
